import Mathlib

/-!
Verification of the frame pool allocator and packet I/O loop of the AF_XDP
UDP client (`src/client.c`).

The pool is embedded shallowly: the C struct members `frames[NUM_FRAMES]`
(an array of `uint64_t` byte offsets) and `num_frames` (a `uint32_t` count)
become a `List Nat` together with a `Nat`.  The C functions
`client_alloc_frame`, `client_free_frame`, the frame-allocator part of
`client_init`, and the state-visible part of `client_update` are translated
one to one.  A C `assert` is modelled by returning `none`.
-/

namespace AfXdp

/-- `#define NUM_FRAMES 4096` in client.c. -/
def NUM_FRAMES : Nat := 4096

/-- `#define FRAME_SIZE XSK_UMEM__DEFAULT_FRAME_SIZE` (= 4096 bytes). -/
def FRAME_SIZE : Nat := 4096

/-- `#define INVALID_FRAME UINT64_MAX`. -/
def INVALID_FRAME : Nat := 2 ^ 64 - 1

/-- `XSK_RING_CONS__DEFAULT_NUM_DESCS` (= 2048), the `peek` bound used by
`client_update` on the completion ring. -/
def XSK_RING_CONS__DEFAULT_NUM_DESCS : Nat := 2048

/-- `XSK_RING_PROD__DEFAULT_NUM_DESCS` (= 2048), the capacity of the
producer rings (fill, transmit). -/
def XSK_RING_PROD__DEFAULT_NUM_DESCS : Nat := 2048

/-- The frame-pool part of `struct client_t`: the backing array
`uint64_t frames[NUM_FRAMES]` and the counter `uint32_t num_frames`.
The free set of the pool is the prefix `frames[0 .. num_frames)`. -/
structure ClientT where
  frames : List Nat
  num_frames : Nat
deriving DecidableEq

/-- The pool's free set: the first `num_frames` entries of `frames`.
Entries at index `≥ num_frames` are dead storage (the allocator poisons
them with `INVALID_FRAME`). -/
def ClientT.freeSet (c : ClientT) : List Nat := c.frames.take c.num_frames

/-- Well-formedness of the embedded struct: the list stands for a C array
of fixed length `NUM_FRAMES`, and the counter stays in bounds. -/
def ClientT.wf (c : ClientT) : Prop :=
  c.frames.length = NUM_FRAMES ∧ c.num_frames ≤ NUM_FRAMES

instance (c : ClientT) : Decidable c.wf :=
  inferInstanceAs (Decidable (_ ∧ _))

/-- `client_alloc_frame` (client.c:262-270):
```
if ( client->num_frames == 0 ) return INVALID_FRAME;
client->num_frames--;
uint64_t frame = client->frames[client->num_frames];
client->frames[client->num_frames] = INVALID_FRAME;
return frame;
```
Returned value paired with the updated struct.  The function contains no
assertion and cannot abort. -/
def client_alloc_frame (c : ClientT) : Nat × ClientT :=
  if c.num_frames = 0 then
    (INVALID_FRAME, c)
  else
    let n := c.num_frames - 1
    let frame := c.frames.getD n 0
    (frame, { frames := c.frames.set n INVALID_FRAME, num_frames := n })

/-- `client_free_frame` (client.c:272-277):
```
assert( client->num_frames < NUM_FRAMES );
client->frames[client->num_frames] = frame;
client->num_frames++;
```
`none` models the assertion firing. -/
def client_free_frame (c : ClientT) (frame : Nat) : Option ClientT :=
  if c.num_frames < NUM_FRAMES then
    some { frames := c.frames.set c.num_frames frame, num_frames := c.num_frames + 1 }
  else
    none

/-- The frame-allocator initialization in `client_init` (client.c:203-210):
`frames[i] = i * FRAME_SIZE` for all `i`, `num_frames = NUM_FRAMES`. -/
def client_init_frames : ClientT :=
  { frames := (List.range NUM_FRAMES).map (fun i => i * FRAME_SIZE),
    num_frames := NUM_FRAMES }

/-- The completion-reclaim loop body of `client_update`: call
`client_free_frame` on each completed address in order.  `none` propagates
an assertion failure. -/
def free_frames : ClientT → List Nat → Option ClientT
  | c, [] => some c
  | c, f :: rest =>
    match client_free_frame c f with
    | some c2 => free_frames c2 rest
    | none => none

/-- The state-visible effect of `client_update` (client.c:279-321) on the
pool and the completion ring.  The C function first issues the non-blocking
wake-up `sendto(..., MSG_DONTWAIT, ...)` (no effect on pool or rings), then
peeks at most `XSK_RING_CONS__DEFAULT_NUM_DESCS` completed entries, frees
each completed frame to the pool, and releases the consumed entries.  The
transmit-submission block is commented out in the source and the fill and
receive rings are never touched. -/
def client_update (c : ClientT) (complete_queue : List Nat) :
    Option (ClientT × List Nat) :=
  let completed := min complete_queue.length XSK_RING_CONS__DEFAULT_NUM_DESCS
  match free_frames c (complete_queue.take completed) with
  | some c2 => some (c2, complete_queue.drop completed)
  | none => none

/-! ### Basic lemmas about the pool operations -/

theorem client_alloc_frame_of_zero (c : ClientT) (h : c.num_frames = 0) :
    client_alloc_frame c = (INVALID_FRAME, c) := by
  simp [client_alloc_frame, h]

theorem take_set_of_le {α : Type} (l : List α) (n i : Nat) (a : α) (h : n ≤ i) :
    (l.set i a).take n = l.take n := by
  rw [List.set_take, List.set_eq_of_length_le]
  exact Nat.le_trans (by simp) h

/-- Popping from a non-empty pool splits the old free set as the new free
set followed by the returned frame. -/
theorem freeSet_alloc_append (c : ClientT) (h : c.num_frames ≤ c.frames.length)
    (hn : c.num_frames ≠ 0) :
    ((client_alloc_frame c).2).freeSet ++ [(client_alloc_frame c).1] = c.freeSet := by
  obtain ⟨L, n⟩ := c
  cases n with
  | zero => exact absurd rfl hn
  | succ m =>
    have hm : m < L.length := h
    simp only [client_alloc_frame, ClientT.freeSet] at *
    simp only [if_neg (Nat.succ_ne_zero m), Nat.succ_sub_one]
    rw [take_set_of_le L m m INVALID_FRAME (Nat.le_refl m)]
    rw [List.take_succ, List.getElem?_eq_getElem hm]
    simp [List.getD, List.getElem?_eq_getElem hm]

theorem alloc_fst_mem_freeSet (c : ClientT) (h : c.num_frames ≤ c.frames.length)
    (hn : c.num_frames ≠ 0) :
    (client_alloc_frame c).1 ∈ c.freeSet := by
  rw [← freeSet_alloc_append c h hn]
  simp

theorem num_frames_alloc (c : ClientT) (hn : c.num_frames ≠ 0) :
    ((client_alloc_frame c).2).num_frames = c.num_frames - 1 := by
  simp [client_alloc_frame, if_neg hn]

theorem frames_length_alloc (c : ClientT) :
    ((client_alloc_frame c).2).frames.length = c.frames.length := by
  unfold client_alloc_frame
  split <;> simp

theorem client_free_frame_of_lt (c : ClientT) (f : Nat) (h : c.num_frames < NUM_FRAMES) :
    client_free_frame c f =
      some { frames := c.frames.set c.num_frames f,
             num_frames := c.num_frames + 1 } := by
  simp [client_free_frame, h]

/-- A successful release appends the released frame to the free set. -/
theorem freeSet_free_append (c : ClientT) (f : Nat) (c2 : ClientT)
    (hlen : c.num_frames < c.frames.length)
    (h : client_free_frame c f = some c2) :
    c2.freeSet = c.freeSet ++ [f] := by
  unfold client_free_frame at h
  split at h
  · cases h
    simp only [ClientT.freeSet]
    rw [List.take_succ, take_set_of_le _ _ _ _ (Nat.le_refl _),
      List.getElem?_set_self (by simpa using hlen)]
    rfl
  · cases h

theorem client_free_frame_some (c : ClientT) (f : Nat) (c2 : ClientT)
    (h : client_free_frame c f = some c2) :
    c.num_frames < NUM_FRAMES ∧
      c2 = { frames := c.frames.set c.num_frames f, num_frames := c.num_frames + 1 } := by
  unfold client_free_frame at h
  split at h
  · cases h; exact ⟨by assumption, rfl⟩
  · cases h

theorem freeSet_length (c : ClientT) (h : c.num_frames ≤ c.frames.length) :
    c.freeSet.length = c.num_frames := by
  simp [ClientT.freeSet]
  omega

theorem freeSet_eq_nil_iff (c : ClientT) (h : c.num_frames ≤ c.frames.length) :
    c.freeSet = [] ↔ c.num_frames = 0 := by
  constructor
  · intro he
    have := freeSet_length c h
    rw [he] at this
    simpa using this.symm
  · intro h0
    simp [ClientT.freeSet, h0]

theorem client_init_frames_wf : client_init_frames.wf :=
  ⟨by simp [client_init_frames], Nat.le_refl _⟩

theorem client_init_frames_freeSet :
    client_init_frames.freeSet =
      (List.range NUM_FRAMES).map (fun i => i * FRAME_SIZE) := by
  have h1 : client_init_frames.freeSet = client_init_frames.frames := by
    show client_init_frames.frames.take client_init_frames.num_frames = _
    apply List.take_of_length_le
    simp [client_init_frames]
  rw [h1]
  simp [client_init_frames]

theorem INVALID_FRAME_not_mem_init : INVALID_FRAME ∉ client_init_frames.freeSet := by
  rw [client_init_frames_freeSet]
  intro hmem
  simp only [List.mem_map, List.mem_range] at hmem
  obtain ⟨i, hi, hEq⟩ := hmem
  have h1 : i * FRAME_SIZE < NUM_FRAMES * FRAME_SIZE :=
    (Nat.mul_lt_mul_right (by decide)).mpr hi
  have h2 : NUM_FRAMES * FRAME_SIZE < INVALID_FRAME := by decide
  omega

theorem init_freeSet_ne_nil : client_init_frames.freeSet ≠ [] := by
  intro he
  have := freeSet_length client_init_frames
    (client_init_frames_wf.1 ▸ client_init_frames_wf.2)
  rw [he] at this
  simp [client_init_frames, NUM_FRAMES] at this

/-- C4: `client_alloc_frame` either removes and returns one frame of the
free set (splitting the old free set as new free set ++ [returned frame]),
or returns the `INVALID_FRAME` sentinel with the pool unchanged, exactly
when the free set is empty.  The function is total (no assertion), so the
exhausted case cannot abort the process. -/
theorem C4_alloc_removes_or_exhausted (c : ClientT) (h : c.wf)
    (hv : INVALID_FRAME ∉ c.freeSet) :
    (c.freeSet = [] → client_alloc_frame c = (INVALID_FRAME, c)) ∧
    (c.freeSet ≠ [] →
      (client_alloc_frame c).1 ≠ INVALID_FRAME ∧
      (client_alloc_frame c).1 ∈ c.freeSet ∧
      ((client_alloc_frame c).2).freeSet ++ [(client_alloc_frame c).1] = c.freeSet) := by
  have hle : c.num_frames ≤ c.frames.length := h.1 ▸ h.2
  constructor
  · intro he
    exact client_alloc_frame_of_zero c ((freeSet_eq_nil_iff c hle).mp he)
  · intro hne
    have hn : c.num_frames ≠ 0 := fun h0 => hne ((freeSet_eq_nil_iff c hle).mpr h0)
    have hmem := alloc_fst_mem_freeSet c hle hn
    exact ⟨fun hbad => hv (hbad ▸ hmem), hmem, freeSet_alloc_append c hle hn⟩

theorem C4_alloc_removes_or_exhausted_witness :
    client_init_frames.wf ∧ INVALID_FRAME ∉ client_init_frames.freeSet ∧
      client_init_frames.freeSet ≠ [] ∧
      (client_alloc_frame client_init_frames).1 ∈ client_init_frames.freeSet :=
  ⟨client_init_frames_wf, INVALID_FRAME_not_mem_init, init_freeSet_ne_nil,
    ((C4_alloc_removes_or_exhausted client_init_frames client_init_frames_wf
      INVALID_FRAME_not_mem_init).2 init_freeSet_ne_nil).2.1⟩

/-- C5: allocating from a non-empty pool and immediately releasing the
returned frame restores the free set to exactly its previous value. -/
theorem C5_round_trip (c : ClientT) (h : c.wf) (hne : c.freeSet ≠ []) :
    ∃ f c2 c3, client_alloc_frame c = (f, c2) ∧
      client_free_frame c2 f = some c3 ∧ c3.freeSet = c.freeSet := by
  have hle : c.num_frames ≤ c.frames.length := h.1 ▸ h.2
  have hn : c.num_frames ≠ 0 := fun h0 => hne ((freeSet_eq_nil_iff c hle).mpr h0)
  have hlt2 : ((client_alloc_frame c).2).num_frames < NUM_FRAMES := by
    rw [num_frames_alloc c hn]
    have h2 := h.2
    omega
  have hlen2 : ((client_alloc_frame c).2).num_frames <
      ((client_alloc_frame c).2).frames.length := by
    rw [frames_length_alloc c, h.1]
    exact hlt2
  have hfree := client_free_frame_of_lt ((client_alloc_frame c).2)
    (client_alloc_frame c).1 hlt2
  have hfs := freeSet_free_append ((client_alloc_frame c).2)
    (client_alloc_frame c).1 _ hlen2 hfree
  exact ⟨(client_alloc_frame c).1, (client_alloc_frame c).2, _, rfl, hfree, by
    rw [hfs]; exact freeSet_alloc_append c hle hn⟩

theorem C5_round_trip_witness :
    client_init_frames.wf ∧ client_init_frames.freeSet ≠ [] ∧
      ∃ f c2 c3, client_alloc_frame client_init_frames = (f, c2) ∧
        client_free_frame c2 f = some c3 ∧
        c3.freeSet = client_init_frames.freeSet :=
  ⟨client_init_frames_wf, init_freeSet_ne_nil,
    C5_round_trip client_init_frames client_init_frames_wf init_freeSet_ne_nil⟩

/-- C9 (implicit LIFO order): whenever `num_frames < NUM_FRAMES`, releasing
a frame and immediately allocating returns exactly that frame — the code
fixes the reuse order the spec leaves unspecified to LIFO. -/
theorem C9_lifo_reuse (c : ClientT) (f : Nat) (h : c.frames.length = NUM_FRAMES)
    (hlt : c.num_frames < NUM_FRAMES) :
    ∃ c2, client_free_frame c f = some c2 ∧ (client_alloc_frame c2).1 = f := by
  refine ⟨_, client_free_frame_of_lt c f hlt, ?_⟩
  have hn : c.num_frames < c.frames.length := h ▸ hlt
  simp [client_alloc_frame, List.getD, List.getElem?_set_self hn]

theorem C9_lifo_reuse_witness :
    ∃ c2, client_free_frame ⟨List.replicate 4096 0, 17⟩ 12288 = some c2 ∧
      (client_alloc_frame c2).1 = 12288 :=
  C9_lifo_reuse ⟨List.replicate 4096 0, 17⟩ 12288
    (by rw [List.length_replicate]; rfl) (by decide)

theorem freeSet_of_num_zero (c : ClientT) (h : c.num_frames = 0) :
    c.freeSet = [] := by
  simp [ClientT.freeSet, h]

/-- One successful allocation step preserves well-formedness, decrements
the counter, and keeps the free set a prefix of the old one. -/
theorem alloc_step (c : ClientT) (h : c.wf) (hn : c.num_frames ≠ 0)
    (hv : INVALID_FRAME ∉ c.freeSet) :
    (client_alloc_frame c).1 ≠ INVALID_FRAME ∧
    ((client_alloc_frame c).2).wf ∧
    ((client_alloc_frame c).2).num_frames = c.num_frames - 1 ∧
    INVALID_FRAME ∉ ((client_alloc_frame c).2).freeSet := by
  have hle : c.num_frames ≤ c.frames.length := h.1 ▸ h.2
  have happ := freeSet_alloc_append c hle hn
  have hmem := alloc_fst_mem_freeSet c hle hn
  refine ⟨fun hbad => hv (hbad ▸ hmem), ⟨?_, ?_⟩, num_frames_alloc c hn, ?_⟩
  · rw [frames_length_alloc c]; exact h.1
  · rw [num_frames_alloc c hn]; have := h.2; omega
  · intro hbad
    exact hv (happ ▸ List.mem_append_left _ hbad)

/-- C1 (code bug): `client_free_frame` does NOT detect a double release.
At a concrete pool state whose free set is `[0]` (so frame `0` is already
free), releasing frame `0` again is accepted (the assertion
`num_frames < NUM_FRAMES` passes), the frame is inserted a second time,
and the free set grows to `[0, 0]` — contradicting the spec's requirement
that a double release be detected and reported as a fatal error with the
free set unchanged. -/
theorem C1_double_free_not_detected :
    (0 : Nat) ∈ (ClientT.mk (List.replicate 4096 0) 1).freeSet ∧
    (ClientT.mk (List.replicate 4096 0) 1).freeSet.length = 1 ∧
    ∃ c2, client_free_frame (ClientT.mk (List.replicate 4096 0) 1) 0 = some c2 ∧
      c2.freeSet = [0, 0] ∧ c2.freeSet.length = 2 := by
  exact ⟨by decide, rfl, _, rfl, rfl, rfl⟩

/-- C7: starting from any well-formed pool whose free set has exactly 4
valid frames, four allocations succeed, the fifth returns the
`INVALID_FRAME` (Exhausted) sentinel leaving the pool unchanged, and after
releasing one frame `f` the next allocation succeeds and returns a member
of the size-1 free set (namely `f` itself). -/
theorem C7_exhaustion_scenario (c : ClientT) (h : c.wf) (h4 : c.num_frames = 4)
    (hv : INVALID_FRAME ∉ c.freeSet) (f : Nat) :
    (client_alloc_frame c).1 ≠ INVALID_FRAME ∧
    (client_alloc_frame ((client_alloc_frame c).2)).1 ≠ INVALID_FRAME ∧
    (client_alloc_frame ((client_alloc_frame ((client_alloc_frame c).2)).2)).1 ≠
      INVALID_FRAME ∧
    (client_alloc_frame ((client_alloc_frame ((client_alloc_frame
      ((client_alloc_frame c).2)).2)).2)).1 ≠ INVALID_FRAME ∧
    (let c4 := (client_alloc_frame ((client_alloc_frame ((client_alloc_frame
      ((client_alloc_frame c).2)).2)).2)).2
     client_alloc_frame c4 = (INVALID_FRAME, c4) ∧
     ∃ c5, client_free_frame c4 f = some c5 ∧ c5.freeSet = [f] ∧
       (client_alloc_frame c5).1 ∈ c5.freeSet) := by
  obtain ⟨ha1, hw1, hn1, hv1⟩ := alloc_step c h (by omega) hv
  obtain ⟨ha2, hw2, hn2, hv2⟩ := alloc_step _ hw1 (by omega) hv1
  obtain ⟨ha3, hw3, hn3, hv3⟩ := alloc_step _ hw2 (by omega) hv2
  obtain ⟨ha4, hw4, hn4, hv4⟩ := alloc_step _ hw3 (by omega) hv3
  have hn40 : (client_alloc_frame ((client_alloc_frame ((client_alloc_frame
      ((client_alloc_frame c).2)).2)).2)).2.num_frames = 0 := by omega
  refine ⟨ha1, ha2, ha3, ha4, client_alloc_frame_of_zero _ hn40, ?_⟩
  set c4 := (client_alloc_frame ((client_alloc_frame ((client_alloc_frame
      ((client_alloc_frame c).2)).2)).2)).2 with hc4
  have hlt : c4.num_frames < NUM_FRAMES := by rw [hn40]; decide
  have hfree := client_free_frame_of_lt c4 f hlt
  have hlen : c4.num_frames < c4.frames.length := by
    rw [hn40, hw4.1]; decide
  have hfs := freeSet_free_append c4 f _ hlen hfree
  refine ⟨_, hfree, ?_, ?_⟩
  · rw [hfs, freeSet_of_num_zero c4 hn40]
    rfl
  · have h0 : (0 : Nat) < c4.frames.length := by rw [hw4.1]; decide
    have : (client_alloc_frame
        ⟨c4.frames.set c4.num_frames f, c4.num_frames + 1⟩).1 = f := by
      rw [hn40]
      have h0' : (0 : Nat) < (c4.frames.set 0 f).length := by
        rw [List.length_set]; exact h0
      simp [client_alloc_frame, List.getD,
        List.getElem?_set_self (by simpa using h0)]
    rw [this, hfs, freeSet_of_num_zero c4 hn40]
    exact List.mem_singleton_self f

theorem C7_exhaustion_scenario_witness :
    (ClientT.mk (List.replicate 4096 7) 4).wf ∧
    (ClientT.mk (List.replicate 4096 7) 4).num_frames = 4 ∧
    INVALID_FRAME ∉ (ClientT.mk (List.replicate 4096 7) 4).freeSet ∧
    (client_alloc_frame (ClientT.mk (List.replicate 4096 7) 4)).1 ≠
      INVALID_FRAME :=
  ⟨⟨by rw [List.length_replicate]; rfl, by decide⟩, rfl, by decide,
    (C7_exhaustion_scenario (ClientT.mk (List.replicate 4096 7) 4)
      ⟨by rw [List.length_replicate]; rfl, by decide⟩ rfl (by decide) 7).1⟩

/-! ### The full system state: pool plus the four rings -/

/-- The pool together with the contents of the four rings of
`struct client_t` (fill_queue, receive_queue, send_queue, complete_queue),
each modelled as the FIFO list of frame addresses currently held in the
ring. -/
structure SysState where
  pool : ClientT
  fill_queue : List Nat
  receive_queue : List Nat
  send_queue : List Nat
  complete_queue : List Nat
deriving DecidableEq

/-- The state-visible effect of `client_update` (client.c:279-321) on the
full system state.  The source only reclaims the completion ring; the
fill, receive and send rings are not touched (the transmit-submission
block at lines 283-300 is commented out, and there is no fill replenish
or receive drain anywhere in the source). -/
def client_update_sys (s : SysState) : Option SysState :=
  match client_update s.pool s.complete_queue with
  | some (c2, comp2) =>
    some { s with pool := c2, complete_queue := comp2 }
  | none => none

/-- C3 (code bug): `client_update` does not perform the four loop phases
the spec describes.  At a concrete state with a non-empty pool, an empty
fill ring (with available capacity) and a pending receive-ring entry, one
`client_update` changes nothing at all: no fill replenishment (spec step 4),
no receive reclaim (spec step 2), no transmit submission (spec step 3).
The only state-visible work it does is completion reclaim, shown by the
second part: a completed address is freed back to the pool. -/
theorem C3_update_only_reclaims_completions :
    (client_update_sys (SysState.mk client_init_frames [] [42] [] []) =
      some (SysState.mk client_init_frames [] [42] [] [])) ∧
    0 < client_init_frames.num_frames ∧
    (0 : Nat) < XSK_RING_PROD__DEFAULT_NUM_DESCS ∧
    (∃ s2, client_update_sys
        (SysState.mk (ClientT.mk (List.replicate 4096 0) 0) [] [] [] [8192]) =
          some s2 ∧
      s2.pool.freeSet = [8192] ∧ s2.complete_queue = [] ∧
      s2.fill_queue = [] ∧ s2.receive_queue = [] ∧ s2.send_queue = []) := by
  exact ⟨rfl, by decide, by decide, _, rfl, rfl, rfl, rfl, rfl, rfl⟩

/-! ### Trace semantics for allocate/release call sequences -/

/-- A call made by client code against the frame pool. -/
inductive Op where
  | alloc : Op
  | free : Nat → Op
deriving DecidableEq

/-- One step of the call-trace semantics used for C6, with a ghost list
`live` of frames returned by successful allocations and not yet released.
`Op.free f` is permitted only when `f` is not already in the free set (the
no-double-release precondition of the claim); an assertion failure also
stops the trace. -/
def stepOK : ClientT × List Nat → Op → Option (ClientT × List Nat)
  | (c, live), Op.alloc =>
    if (client_alloc_frame c).1 = INVALID_FRAME then
      some ((client_alloc_frame c).2, live)
    else
      some ((client_alloc_frame c).2, (client_alloc_frame c).1 :: live)
  | (c, live), Op.free f =>
    if f ∈ c.freeSet then none
    else
      match client_free_frame c f with
      | some c2 => some (c2, live.erase f)
      | none => none

def execOK : List Op → ClientT × List Nat → Option (ClientT × List Nat)
  | [], s => some s
  | op :: ops, s =>
    match stepOK s op with
    | some s2 => execOK ops s2
    | none => none

/-- The inductive invariant for C6: well-formed pool, duplicate-free free
set, duplicate-free live list, and the two disjoint. -/
def InvOK : ClientT × List Nat → Prop
  | (c, live) =>
    c.wf ∧ c.freeSet.Nodup ∧ live.Nodup ∧ ∀ f ∈ live, f ∉ c.freeSet

theorem init_freeSet_nodup : client_init_frames.freeSet.Nodup := by
  rw [client_init_frames_freeSet]
  refine List.Nodup.map ?_ (List.nodup_range NUM_FRAMES)
  intro a b hab
  have hpos : (0 : Nat) < FRAME_SIZE := by decide
  exact Nat.eq_of_mul_eq_mul_right hpos hab

theorem InvOK_init : InvOK (client_init_frames, []) :=
  ⟨client_init_frames_wf, init_freeSet_nodup, List.nodup_nil,
    fun f hf => absurd hf (List.not_mem_nil f)⟩

/-- Facts shared by the alloc case of all trace invariants. -/
theorem alloc_facts (c : ClientT) (hwf : c.wf) (hnd : c.freeSet.Nodup)
    (hz : c.num_frames ≠ 0) :
    ((client_alloc_frame c).2).wf ∧
    ((client_alloc_frame c).2).freeSet.Nodup ∧
    (client_alloc_frame c).1 ∉ ((client_alloc_frame c).2).freeSet ∧
    (client_alloc_frame c).1 ∈ c.freeSet ∧
    ((client_alloc_frame c).2).freeSet ⊆ c.freeSet := by
  have hle : c.num_frames ≤ c.frames.length := hwf.1 ▸ hwf.2
  have happ := freeSet_alloc_append c hle hz
  have hnd' : (((client_alloc_frame c).2).freeSet ++
      [(client_alloc_frame c).1]).Nodup := happ.symm ▸ hnd
  obtain ⟨hndA, _, hdisj⟩ := List.nodup_append.mp hnd'
  refine ⟨⟨?_, ?_⟩, hndA, ?_, alloc_fst_mem_freeSet c hle hz, ?_⟩
  · rw [frames_length_alloc c]; exact hwf.1
  · rw [num_frames_alloc c hz]; have := hwf.2; omega
  · intro hbad
    exact hdisj hbad (List.mem_singleton_self _)
  · intro g hg
    exact happ ▸ List.mem_append_left _ hg

/-- Facts shared by the free case of all trace invariants. -/
theorem free_facts (c c2 : ClientT) (f : Nat) (hwf : c.wf)
    (h : client_free_frame c f = some c2) :
    c2.wf ∧ c2.freeSet = c.freeSet ++ [f] := by
  obtain ⟨hlt, rfl⟩ := client_free_frame_some c f c2 h
  have hlen : c.num_frames < c.frames.length := hwf.1 ▸ hlt
  refine ⟨⟨?_, ?_⟩, freeSet_free_append c f _ hlen h⟩
  · show (c.frames.set c.num_frames f).length = NUM_FRAMES
    rw [List.length_set]; exact hwf.1
  · show c.num_frames + 1 ≤ NUM_FRAMES
    omega

theorem stepOK_inv (s s' : ClientT × List Nat) (op : Op)
    (hInv : InvOK s) (h : stepOK s op = some s') : InvOK s' := by
  obtain ⟨c, live⟩ := s
  obtain ⟨hwf, hnd, hlnd, hdisj⟩ := hInv
  cases op with
  | alloc =>
    by_cases hz : c.num_frames = 0
    · have hClean : client_alloc_frame c = (INVALID_FRAME, c) :=
        client_alloc_frame_of_zero c hz
      simp only [stepOK, hClean, if_pos] at h
      cases h
      exact ⟨hwf, hnd, hlnd, hdisj⟩
    · obtain ⟨hwf2, hnd2, hni, hmem, hsub⟩ := alloc_facts c hwf hnd hz
      simp only [stepOK] at h
      split at h
      · cases h
        exact ⟨hwf2, hnd2, hlnd, fun g hg hbad => hdisj g hg (hsub hbad)⟩
      · cases h
        refine ⟨hwf2, hnd2, ?_, ?_⟩
        · exact List.nodup_cons.mpr ⟨fun hbad => hdisj _ hbad hmem, hlnd⟩
        · intro g hg
          rcases List.mem_cons.mp hg with hg | hg
          · exact hg ▸ hni
          · exact fun hbad => hdisj g hg (hsub hbad)
  | free f =>
    simp only [stepOK] at h
    split at h
    · cases h
    · rename_i hf
      cases hfree : client_free_frame c f with
      | none => rw [hfree] at h; cases h
      | some c2 =>
        rw [hfree] at h
        cases h
        obtain ⟨hwf2, hfs⟩ := free_facts c c2 f hwf hfree
        refine ⟨hwf2, ?_, hlnd.erase f, ?_⟩
        · rw [hfs]
          exact List.nodup_append.mpr ⟨hnd, List.nodup_singleton f,
            fun a ha hx => hf ((List.mem_singleton.mp hx) ▸ ha)⟩
        · intro g hg hbad
          obtain ⟨hgf, hgl⟩ := (List.Nodup.mem_erase_iff hlnd).mp hg
          rw [hfs] at hbad
          rcases List.mem_append.mp hbad with hb | hb
          · exact hdisj g hgl hb
          · exact hgf (List.mem_singleton.mp hb)

theorem execOK_inv (ops : List Op) :
    ∀ s s', InvOK s → execOK ops s = some s' → InvOK s' := by
  induction ops with
  | nil =>
    intro s s' hInv h
    cases h
    exact hInv
  | cons op ops ih =>
    intro s s' hInv h
    simp only [execOK] at h
    cases hstep : stepOK s op with
    | none => rw [hstep] at h; cases h
    | some s2 =>
      rw [hstep] at h
      exact ih s2 s' (stepOK_inv s s2 op hInv hstep) h

/-- C6: along any allocate/release call sequence started at the freshly
initialized pool in which no frame is ever released while already in the
free set, the ghost list of live (allocated, not yet released) frames
never contains a duplicate: no two live allocations return the same frame
identifier. -/
theorem C6_no_double_allocation (ops : List Op) (s : ClientT × List Nat)
    (h : execOK ops (client_init_frames, []) = some s) :
    s.2.Nodup :=
  (execOK_inv ops (client_init_frames, []) s InvOK_init h).2.2.1

theorem alloc_init_fst_ne : (client_alloc_frame client_init_frames).1 ≠ INVALID_FRAME :=
  fun hbad => INVALID_FRAME_not_mem_init (hbad ▸ alloc_fst_mem_freeSet
    client_init_frames (client_init_frames_wf.1 ▸ client_init_frames_wf.2)
    (by decide))

theorem C6_no_double_allocation_witness :
    ∃ s, execOK [Op.alloc] (client_init_frames, []) = some s ∧ s.2.Nodup := by
  have h : execOK [Op.alloc] (client_init_frames, []) =
      some ((client_alloc_frame client_init_frames).2,
        [(client_alloc_frame client_init_frames).1]) := by
    simp [execOK, stepOK, alloc_init_fst_ne]
  exact ⟨_, h, C6_no_double_allocation [Op.alloc] _ h⟩

/-- One step of the round-trip trace semantics used for C8: identical to
`stepOK` except that a release is permitted only for a frame previously
returned by an allocation and still outstanding (`f ∈ live`), i.e. the
trace consists of allocate/release round trips. -/
def stepRT : ClientT × List Nat → Op → Option (ClientT × List Nat)
  | (c, live), Op.alloc =>
    if (client_alloc_frame c).1 = INVALID_FRAME then
      some ((client_alloc_frame c).2, live)
    else
      some ((client_alloc_frame c).2, (client_alloc_frame c).1 :: live)
  | (c, live), Op.free f =>
    if f ∈ live then
      match client_free_frame c f with
      | some c2 => some (c2, live.erase f)
      | none => none
    else none

def execRT : List Op → ClientT × List Nat → Option (ClientT × List Nat)
  | [], s => some s
  | op :: ops, s =>
    match stepRT s op with
    | some s2 => execRT ops s2
    | none => none

/-- Inductive invariant for C8: the C6 invariant together with the
alignment of every free and every outstanding frame offset. -/
def InvRT : ClientT × List Nat → Prop
  | (c, live) =>
    c.wf ∧ c.freeSet.Nodup ∧ live.Nodup ∧ (∀ f ∈ live, f ∉ c.freeSet) ∧
    (∀ f ∈ c.freeSet, FRAME_SIZE ∣ f) ∧ (∀ f ∈ live, FRAME_SIZE ∣ f)

theorem InvRT_init : InvRT (client_init_frames, []) := by
  refine ⟨client_init_frames_wf, init_freeSet_nodup, List.nodup_nil,
    fun f hf => absurd hf (List.not_mem_nil f), ?_, fun f hf => absurd hf (List.not_mem_nil f)⟩
  intro f hf
  rw [client_init_frames_freeSet] at hf
  obtain ⟨i, _, rfl⟩ := List.mem_map.mp hf
  exact Dvd.intro_left i rfl

theorem stepRT_inv (s s' : ClientT × List Nat) (op : Op)
    (hInv : InvRT s) (h : stepRT s op = some s') : InvRT s' := by
  obtain ⟨c, live⟩ := s
  obtain ⟨hwf, hnd, hlnd, hdisj, hal, hll⟩ := hInv
  cases op with
  | alloc =>
    by_cases hz : c.num_frames = 0
    · have hClean : client_alloc_frame c = (INVALID_FRAME, c) :=
        client_alloc_frame_of_zero c hz
      simp only [stepRT, hClean, if_pos] at h
      cases h
      exact ⟨hwf, hnd, hlnd, hdisj, hal, hll⟩
    · obtain ⟨hwf2, hnd2, hni, hmem, hsub⟩ := alloc_facts c hwf hnd hz
      simp only [stepRT] at h
      split at h
      · cases h
        exact ⟨hwf2, hnd2, hlnd, fun g hg hbad => hdisj g hg (hsub hbad),
          fun g hg => hal g (hsub hg), hll⟩
      · cases h
        refine ⟨hwf2, hnd2,
          List.nodup_cons.mpr ⟨fun hbad => hdisj _ hbad hmem, hlnd⟩, ?_,
          fun g hg => hal g (hsub hg), ?_⟩
        · intro g hg
          rcases List.mem_cons.mp hg with hg | hg
          · exact hg ▸ hni
          · exact fun hbad => hdisj g hg (hsub hbad)
        · intro g hg
          rcases List.mem_cons.mp hg with hg | hg
          · exact hg ▸ hal _ hmem
          · exact hll g hg
  | free f =>
    simp only [stepRT] at h
    split at h
    · rename_i hf
      cases hfree : client_free_frame c f with
      | none => rw [hfree] at h; cases h
      | some c2 =>
        rw [hfree] at h
        cases h
        obtain ⟨hwf2, hfs⟩ := free_facts c c2 f hwf hfree
        have hfns : f ∉ c.freeSet := hdisj f hf
        refine ⟨hwf2, ?_, hlnd.erase f, ?_, ?_,
          fun g hg => hll g (List.mem_of_mem_erase hg)⟩
        · rw [hfs]
          exact List.nodup_append.mpr ⟨hnd, List.nodup_singleton f,
            fun a ha hx => hfns ((List.mem_singleton.mp hx) ▸ ha)⟩
        · intro g hg hbad
          obtain ⟨hgf, hgl⟩ := (List.Nodup.mem_erase_iff hlnd).mp hg
          rw [hfs] at hbad
          rcases List.mem_append.mp hbad with hb | hb
          · exact hdisj g hgl hb
          · exact hgf (List.mem_singleton.mp hb)
        · intro g hg
          rw [hfs] at hg
          rcases List.mem_append.mp hg with hb | hb
          · exact hal g hb
          · exact (List.mem_singleton.mp hb) ▸ hll f hf
    · cases h

theorem execRT_inv (ops : List Op) :
    ∀ s s', InvRT s → execRT ops s = some s' → InvRT s' := by
  induction ops with
  | nil =>
    intro s s' hInv h
    cases h
    exact hInv
  | cons op ops ih =>
    intro s s' hInv h
    simp only [execRT] at h
    cases hstep : stepRT s op with
    | none => rw [hstep] at h; cases h
    | some s2 =>
      rw [hstep] at h
      exact ih s2 s' (stepRT_inv s s2 op hInv hstep) h

/-- C8: immediately after pool initialization (the empty trace) and in
every state reachable from it by allocate/release round trips, every frame
byte offset held in the free set is an exact multiple of `FRAME_SIZE`. -/
theorem C8_alignment (ops : List Op) (s : ClientT × List Nat)
    (h : execRT ops (client_init_frames, []) = some s) :
    ∀ f ∈ s.1.freeSet, FRAME_SIZE ∣ f :=
  (execRT_inv ops (client_init_frames, []) s InvRT_init h).2.2.2.2.1

theorem C8_alignment_witness :
    ∃ s, execRT [Op.alloc] (client_init_frames, []) = some s ∧
      ∀ f ∈ s.1.freeSet, FRAME_SIZE ∣ f := by
  have h : execRT [Op.alloc] (client_init_frames, []) =
      some ((client_alloc_frame client_init_frames).2,
        [(client_alloc_frame client_init_frames).1]) := by
    simp [execRT, stepRT, alloc_init_fst_ne]
  exact ⟨_, h, C8_alignment [Op.alloc] _ h⟩

/-- One step of the counting trace semantics used for C10.  The ghost
counter `k` is the number of successful `client_alloc_frame` calls minus
the number of `client_free_frame` calls so far; a `free` with `k = 0`
would violate the no-over-release precondition and stops the trace.  A
`free` with `k > 0` runs `client_free_frame`, whose assertion failure
(`none`) also stops the trace. -/
def stepP : ClientT × Nat → Op → Option (ClientT × Nat)
  | (c, k), Op.alloc =>
    if (client_alloc_frame c).1 = INVALID_FRAME then
      some ((client_alloc_frame c).2, k)
    else
      some ((client_alloc_frame c).2, k + 1)
  | (c, k), Op.free f =>
    match k with
    | 0 => none
    | k' + 1 =>
      match client_free_frame c f with
      | some c2 => some (c2, k')
      | none => none

def execP : List Op → ClientT × Nat → Option (ClientT × Nat)
  | [], s => some s
  | op :: ops, s =>
    match stepP s op with
    | some s2 => execP ops s2
    | none => none

/-- Inductive invariant for C10: the counter plus the pool occupancy never
exceeds the pool capacity. -/
def InvP : ClientT × Nat → Prop
  | (c, k) => c.num_frames + k ≤ NUM_FRAMES

theorem stepP_inv (s s' : ClientT × Nat) (op : Op)
    (hInv : InvP s) (h : stepP s op = some s') : InvP s' := by
  obtain ⟨c, k⟩ := s
  cases op with
  | alloc =>
    by_cases hz : c.num_frames = 0
    · have hClean : client_alloc_frame c = (INVALID_FRAME, c) :=
        client_alloc_frame_of_zero c hz
      simp only [stepP, hClean, if_pos] at h
      cases h
      exact hInv
    · have hnum := num_frames_alloc c hz
      simp only [stepP] at h
      split at h <;> cases h <;> show _ + _ ≤ _ <;> rw [hnum] <;>
        revert hInv <;> unfold InvP <;> omega
  | free f =>
    simp only [stepP] at h
    cases k with
    | zero => cases h
    | succ k' =>
      cases hfree : client_free_frame c f with
      | none => rw [hfree] at h; cases h
      | some c2 =>
        rw [hfree] at h
        cases h
        obtain ⟨hlt, rfl⟩ := client_free_frame_some c f c2 hfree
        show c.num_frames + 1 + k' ≤ NUM_FRAMES
        revert hInv
        unfold InvP
        omega

theorem execP_inv (ops : List Op) :
    ∀ s s', InvP s → execP ops s = some s' → InvP s' := by
  induction ops with
  | nil =>
    intro s s' hInv h
    cases h
    exact hInv
  | cons op ops ih =>
    intro s s' hInv h
    simp only [execP] at h
    cases hstep : stepP s op with
    | none => rw [hstep] at h; cases h
    | some s2 =>
      rw [hstep] at h
      exact ih s2 s' (stepP_inv s s2 op hInv hstep) h

/-- C10: along any call sequence started at the freshly initialized pool
in which the number of releases never exceeds the number of prior
successful allocations (ensured by the ghost counter of `stepP`),
`num_frames ≤ NUM_FRAMES` holds in every reachable state, and whenever the
precondition permits a further release (counter positive) the assertion
`num_frames < NUM_FRAMES` at the head of `client_free_frame` passes, so
`client_free_frame` cannot abort. -/
theorem C10_release_assert_never_fails (ops : List Op) (c : ClientT) (k : Nat)
    (h : execP ops (client_init_frames, 0) = some (c, k)) :
    c.num_frames ≤ NUM_FRAMES ∧
      (0 < k → ∀ f, client_free_frame c f ≠ none) := by
  have hInv : InvP (c, k) :=
    execP_inv ops (client_init_frames, 0) (c, k)
      (by show client_init_frames.num_frames + 0 ≤ NUM_FRAMES
          rw [Nat.add_zero]
          exact client_init_frames_wf.2) h
  have hle : c.num_frames + k ≤ NUM_FRAMES := hInv
  refine ⟨by omega, ?_⟩
  intro hk f
  rw [client_free_frame_of_lt c f (by omega)]
  exact fun hbad => Option.noConfusion hbad

theorem C10_release_assert_never_fails_witness :
    ∃ c, execP [Op.alloc] (client_init_frames, 0) = some (c, 1) ∧
      c.num_frames ≤ NUM_FRAMES ∧ ∀ f, client_free_frame c f ≠ none := by
  have h : execP [Op.alloc] (client_init_frames, 0) =
      some ((client_alloc_frame client_init_frames).2, 1) := by
    simp [execP, stepP, alloc_init_fst_ne]
  exact ⟨_, h, (C10_release_assert_never_fails [Op.alloc] _ 1 h).1,
    (C10_release_assert_never_fails [Op.alloc] _ 1 h).2 (by decide)⟩

/-! ### Conservation across the pool and the four rings (C2) -/

/-- The system state right after `client_init`: full pool, empty rings. -/
def init_sys : SysState :=
  { pool := client_init_frames, fill_queue := [], receive_queue := [],
    send_queue := [], complete_queue := [] }

/-- The multiset union of the five frame collections, as a list. -/
def SysState.allFrames (s : SysState) : List Nat :=
  s.pool.freeSet ++ s.fill_queue ++ s.receive_queue ++ s.send_queue ++
    s.complete_queue

/-- `free_frames` (the completion loop of `client_update`) appends the
freed addresses, in order, to the free set. -/
theorem free_frames_spec (l : List Nat) : ∀ c c2 : ClientT, c.wf →
    free_frames c l = some c2 → c2.wf ∧ c2.freeSet = c.freeSet ++ l := by
  induction l with
  | nil =>
    intro c c2 hwf h
    cases h
    exact ⟨hwf, (List.append_nil _).symm⟩
  | cons f rest ih =>
    intro c c2 hwf h
    simp only [free_frames] at h
    cases hfree : client_free_frame c f with
    | none => rw [hfree] at h; cases h
    | some cm =>
      rw [hfree] at h
      obtain ⟨hwfm, hfs⟩ := free_facts c cm f hwf hfree
      obtain ⟨hwf2, hfs2⟩ := ih cm c2 hwfm h
      refine ⟨hwf2, ?_⟩
      rw [hfs2, hfs, List.append_assoc]
      rfl

/-- Modelled from the spec: the protocol-level steps of normal operation
(spec §4.4 and §4.2), closing the system over the kernel counterparty,
whose ring behaviour is not part of this repository, and over the loop
phases absent from the source (receive reclaim, transmit submission, fill
replenishment — spec steps 2-4).  `replenish_fill` and `submit_send`
allocate one frame from the pool and enqueue it on the fill/transmit ring
(bounded by the ring capacity); `kernel_receive` and `kernel_complete` are
the counterparty moving the FIFO head of the fill (resp. transmit) ring to
the receive (resp. completion) ring; `reclaim_receive` recycles a received
frame into the pool; `update` is the source's own `client_update`. -/
inductive SysStep : SysState → SysState → Prop where
  | replenish_fill (s : SysState) (hz : s.pool.num_frames ≠ 0)
      (hcap : s.fill_queue.length < XSK_RING_PROD__DEFAULT_NUM_DESCS) :
      SysStep s { s with
                    pool := (client_alloc_frame s.pool).2,
                    fill_queue := s.fill_queue ++ [(client_alloc_frame s.pool).1] }
  | kernel_receive (s : SysState) (f : Nat) (rest : List Nat)
      (hf : s.fill_queue = f :: rest) :
      SysStep s { s with
                    fill_queue := rest,
                    receive_queue := s.receive_queue ++ [f] }
  | reclaim_receive (s : SysState) (f : Nat) (rest : List Nat) (c2 : ClientT)
      (hr : s.receive_queue = f :: rest)
      (hfree : client_free_frame s.pool f = some c2) :
      SysStep s { s with pool := c2, receive_queue := rest }
  | submit_send (s : SysState) (hz : s.pool.num_frames ≠ 0)
      (hcap : s.send_queue.length < XSK_RING_PROD__DEFAULT_NUM_DESCS) :
      SysStep s { s with
                    pool := (client_alloc_frame s.pool).2,
                    send_queue := s.send_queue ++ [(client_alloc_frame s.pool).1] }
  | kernel_complete (s : SysState) (f : Nat) (rest : List Nat)
      (hs : s.send_queue = f :: rest) :
      SysStep s { s with
                    send_queue := rest,
                    complete_queue := s.complete_queue ++ [f] }
  | update (s s2 : SysState) (h : client_update_sys s = some s2) :
      SysStep s s2

/-- Every protocol step preserves the multiset of frames across the five
collections, and pool well-formedness. -/
theorem sysStep_allFrames (s s2 : SysState) (hwf : s.pool.wf)
    (h : SysStep s s2) :
    ((s2.allFrames : Multiset Nat) = (s.allFrames : Multiset Nat)) ∧
      s2.pool.wf := by
  cases h with
  | replenish_fill hz hcap =>
    have hle : s.pool.num_frames ≤ s.pool.frames.length := hwf.1 ▸ hwf.2
    have happ := freeSet_alloc_append s.pool hle hz
    constructor
    · simp only [SysState.allFrames]
      rw [← happ]
      simp only [← Multiset.coe_add]
      abel
    · exact ⟨by rw [frames_length_alloc s.pool]; exact hwf.1,
        by rw [num_frames_alloc s.pool hz]; have := hwf.2; omega⟩
  | kernel_receive f rest hf =>
    constructor
    · simp only [SysState.allFrames]
      rw [hf, show (f :: rest : List Nat) = [f] ++ rest from rfl]
      simp only [← Multiset.coe_add]
      abel
    · exact hwf
  | reclaim_receive f rest c2 hr hfree =>
    obtain ⟨hwf2, hfs⟩ := free_facts s.pool c2 f hwf hfree
    constructor
    · simp only [SysState.allFrames]
      rw [hfs, hr, show (f :: rest : List Nat) = [f] ++ rest from rfl]
      simp only [← Multiset.coe_add]
      abel
    · exact hwf2
  | submit_send hz hcap =>
    have hle : s.pool.num_frames ≤ s.pool.frames.length := hwf.1 ▸ hwf.2
    have happ := freeSet_alloc_append s.pool hle hz
    constructor
    · simp only [SysState.allFrames]
      rw [← happ]
      simp only [← Multiset.coe_add]
      abel
    · exact ⟨by rw [frames_length_alloc s.pool]; exact hwf.1,
        by rw [num_frames_alloc s.pool hz]; have := hwf.2; omega⟩
  | kernel_complete f rest hs =>
    constructor
    · simp only [SysState.allFrames]
      rw [hs, show (f :: rest : List Nat) = [f] ++ rest from rfl]
      simp only [← Multiset.coe_add]
      abel
    · exact hwf
  | update s2 h =>
    simp only [client_update_sys, client_update] at h
    cases hff : free_frames s.pool (s.complete_queue.take
        (min s.complete_queue.length XSK_RING_CONS__DEFAULT_NUM_DESCS)) with
    | none => rw [hff] at h; cases h
    | some c2 =>
      rw [hff] at h
      cases h
      obtain ⟨hwf2, hfs⟩ := free_frames_spec _ s.pool c2 hwf hff
      constructor
      · simp only [SysState.allFrames]
        rw [hfs]
        conv_rhs => rw [show s.complete_queue = s.complete_queue.take
          (min s.complete_queue.length XSK_RING_CONS__DEFAULT_NUM_DESCS) ++
          s.complete_queue.drop
            (min s.complete_queue.length XSK_RING_CONS__DEFAULT_NUM_DESCS)
          from (List.take_append_drop _ _).symm]
        simp only [← Multiset.coe_add]
        abel
      · exact hwf2

/-- Modelled from the spec: the states reachable from the initialized
system by protocol steps of normal operation. -/
inductive SysReach : SysState → Prop where
  | init : SysReach init_sys
  | step (s s2 : SysState) : SysReach s → SysStep s s2 → SysReach s2

theorem sysReach_inv (s : SysState) (h : SysReach s) :
    s.allFrames.Perm client_init_frames.freeSet ∧ s.pool.wf := by
  induction h with
  | init =>
    constructor
    · show (client_init_frames.freeSet ++ [] ++ [] ++ [] ++ []).Perm _
      simp
    · exact client_init_frames_wf
  | step s s2 hr hstep ih =>
    obtain ⟨hperm, hwf⟩ := ih
    obtain ⟨heq, hwf2⟩ := sysStep_allFrames s s2 hwf hstep
    exact ⟨(Multiset.coe_eq_coe.mp heq).trans hperm, hwf2⟩

/-- C2: in every state reachable from the initialized system by any
sequence of normal-operation steps (pool allocations feeding the fill or
transmit ring, kernel ring moves, receive reclaim, and the source's
`client_update`), the five collections together hold exactly the initial
frame set: their concatenation is a permutation of the initial free set,
contains no duplicate (so no identifier is in two collections), and
contains every identifier `i * FRAME_SIZE` for `i < NUM_FRAMES`. -/
theorem C2_conservation (s : SysState) (h : SysReach s) :
    s.allFrames.Perm client_init_frames.freeSet ∧ s.allFrames.Nodup ∧
      ∀ i, i < NUM_FRAMES → i * FRAME_SIZE ∈ s.allFrames := by
  obtain ⟨hperm, _⟩ := sysReach_inv s h
  refine ⟨hperm, hperm.nodup_iff.mpr init_freeSet_nodup, ?_⟩
  intro i hi
  refine hperm.mem_iff.mpr ?_
  rw [client_init_frames_freeSet]
  exact List.mem_map.mpr ⟨i, List.mem_range.mpr hi, rfl⟩

theorem C2_conservation_witness :
    init_sys.allFrames.Nodup ∧ (0 : Nat) * FRAME_SIZE ∈ init_sys.allFrames :=
  ⟨(C2_conservation init_sys SysReach.init).2.1,
    (C2_conservation init_sys SysReach.init).2.2 0 (by decide)⟩

end AfXdp
